import Mathlib

/-!
Shallow embedding of the fraud-detection data-processing pipeline
(`src/fraud_detection/pipelines/data_processing/nodes.py`).

A pandas DataFrame is modelled as a header (list of column names) together
with a list of rows, each row an association list from column names to cell
values.  A cell is a rational number, a string, or the missing value `null`
(pandas NaN/None).  Machine floats are modelled by rationals; the three
float-only operations whose exact values no claim depends on
(`np.log1p`, the square root inside the sample standard deviation, and
`str()` rendering of a float) are abstracted as an arbitrary `FloatSem`
structure that every theorem quantifies over.

Pandas behaviours reproduced by the model and relied on below:
`NaN == NaN` is False in element-wise comparison; `groupby` drops null keys;
`count` counts non-null entries; `mean`/`std` skip nulls and `std` uses the
sample (ddof = 1) convention, yielding NaN for groups with fewer than two
non-null entries; `value_counts`/`nunique` ignore nulls; `get_dummies`
ignores null cells and drops the first indicator; a left merge emits one
output row per matching right row and pads with nulls when unmatched.
Not modelled (no claim depends on them): `_x`/`_y` suffixing of colliding
non-key column names in a merge, exceptions raised by arithmetic on string
cells, and the exact decimal rendering of floats.
-/

/-- A cell value: numeric, string, or missing (pandas NaN/None). -/
inductive Val where
  | num (q : ℚ)
  | str (s : String)
  | null
deriving DecidableEq

/-- A row: association list from column names to cell values. -/
abbrev Row := List (String × Val)

/-- Cell lookup in a row; absent names read as missing. -/
def Row.get (r : Row) (c : String) : Val :=
  ((r.find? (fun p => p.1 = c)).map Prod.snd).getD Val.null

/-- Column assignment on a row: overwrite in place if the name exists,
otherwise append the new column at the end (pandas `df[c] = v`). -/
def Row.set (r : Row) (c : String) (v : Val) : Row :=
  if r.any (fun p => p.1 = c) then r.map (fun p => if p.1 = c then (c, v) else p)
  else r ++ [(c, v)]

/-- A DataFrame: column names in order, plus the rows. -/
structure DF where
  header : List String
  rows : List Row
deriving DecidableEq

/-- A column of a DataFrame, as the list of its cells in row order. -/
def DF.col (df : DF) (c : String) : List Val := df.rows.map (fun r => r.get c)

/-- Append a column name to a header if it is not already present. -/
def addCol (h : List String) (c : String) : List String := if c ∈ h then h else h ++ [c]

/-- Append several column names to a header. -/
def addCols (h : List String) (cs : List String) : List String := cs.foldl addCol h

/-- A configuration value from the parameters mapping. -/
inductive PVal where
  | int (n : ℤ)
  | rat (q : ℚ)
  | str (s : String)
  | strList (l : List String)
deriving DecidableEq

/-- The configuration mapping (`params: dict`). -/
abbrev Params := List (String × PVal)

/-- Raw lookup in the configuration mapping. -/
def Params.get? (p : Params) (k : String) : Option PVal :=
  (p.find? (fun e => e.1 = k)).map Prod.snd

/-- `params[k]` expected to be an integer; `none` models a KeyError. -/
def Params.getInt (p : Params) (k : String) : Option ℤ :=
  match p.get? k with
  | some (.int n) => some n
  | _ => none

/-- `params[k]` expected to be a string; `none` models a KeyError. -/
def Params.getStr (p : Params) (k : String) : Option String :=
  match p.get? k with
  | some (.str s) => some s
  | _ => none

/-- `params.get(k, d)` for a numeric value with default `d`. -/
def Params.getRatD (p : Params) (k : String) (d : ℚ) : ℚ :=
  match p.get? k with
  | some (.rat q) => q
  | some (.int n) => (n : ℚ)
  | _ => d

/-- `params.get(k, d)` for a string value with default `d`. -/
def Params.getStrD (p : Params) (k : String) (d : String) : String :=
  match p.get? k with
  | some (.str s) => s
  | _ => d

/-- `params.get(k, d)` for a list-of-strings value with default `d`. -/
def Params.getStrListD (p : Params) (k : String) (d : List String) : List String :=
  match p.get? k with
  | some (.strList l) => l
  | _ => d

/-- `true` exactly on error results; models "the stage raises". -/
def isErr {α : Type} (e : Except String α) : Bool :=
  match e with
  | .error _ => true
  | .ok _ => false

/-- The identity-table columns appended by the merge (all but the join key). -/
def identityCols (i : DF) : List String := i.header.filter (fun c => c ≠ "TransactionID")

/-- One left-join step: all right rows matching the left row's key, or a
null-padded row when unmatched.  Pandas matches null keys by equality, which
`Val` equality reproduces. -/
def mergeRow (i : DF) (r : Row) : List Row :=
  let ms := i.rows.filter (fun s => s.get "TransactionID" = r.get "TransactionID")
  if ms.isEmpty then [r ++ (identityCols i).map (fun c => (c, Val.null))]
  else ms.map (fun s => r ++ (identityCols i).map (fun c => (c, s.get c)))

/-- `merge_datasets`: left join of transactions and identity on the
hard-coded key "TransactionID"; KeyError when either table lacks the key. -/
def merge_datasets (t i : DF) : Except String DF :=
  if "TransactionID" ∈ t.header ∧ "TransactionID" ∈ i.header then
    .ok ⟨t.header ++ identityCols i, t.rows.flatMap (mergeRow i)⟩
  else .error "KeyError: TransactionID"

/-- Abstraction of the three float-valued library operations whose exact
values no claim depends on: `np.log1p`, the square root taken inside the
sample standard deviation, and `str()` rendering of a float. -/
structure FloatSem where
  log1p : ℚ → ℚ
  sqrt : ℚ → ℚ
  render : ℚ → String

/-- Python floor division `q // n` for positive integer `n`, i.e. ⌊q / n⌋,
computed on the reduced fraction. -/
def pyFloorDiv (q : ℚ) (n : ℤ) : ℤ := q.num.fdiv (q.den * n)

/-- Python `q % 1`: the fractional part `q - ⌊q⌋`, in `[0, 1)`. -/
def fracPart (q : ℚ) : ℚ := q - (q.num.fdiv q.den : ℚ)

/-- Apply a numeric function to a cell; non-numeric cells become missing
(NaN propagation). -/
def numMap (v : Val) (f : ℚ → ℚ) : Val :=
  match v with
  | .num q => .num (f q)
  | _ => .null

/-- A pandas boolean `.astype(int)` cell: 1 for true, 0 for false. -/
def boolInt (b : Bool) : Val := .num (if b then 1 else 0)

/-- Email provider: text before the first "."; non-string cells become the
literal "unknown". -/
def emailProvider (v : Val) : Val :=
  match v with
  | .str s => .str ((s.splitOn ".").headD s)
  | _ => .str "unknown"

/-- Python `str()` of a cell as used in the card-id concatenation; `str(nan)`
is the literal "nan". -/
def pyStr (F : FloatSem) (v : Val) : String :=
  match v with
  | .num q => F.render q
  | .str s => s
  | .null => "nan"

/-- The per-row derivations of `engineer_features`, in source order:
temporal buckets, monetary features, email features, and the composite
card identity. -/
def deriveRow (F : FloatSem) (ns ne : ℤ) (r : Row) : Row :=
  let dt := r.get "TransactionDT"
  let amt := r.get "TransactionAmt"
  let hour : Val :=
    match dt with
    | .num q => .num (((pyFloorDiv q 3600).emod 24 : ℤ) : ℚ)
    | _ => .null
  let dow : Val :=
    match dt with
    | .num q => .num (((pyFloorDiv q 86400).emod 7 : ℤ) : ℚ)
    | _ => .null
  let r := r.set "hour" hour
  let r := r.set "day_of_week" dow
  let r := r.set "is_weekend" (boolInt (dow = .num 5 ∨ dow = .num 6))
  let isNight : Bool :=
    match hour with
    | .num h => decide ((ns : ℚ) ≤ h ∨ h < (ne : ℚ))
    | _ => false
  let r := r.set "is_night" (boolInt isNight)
  let r := r.set "amt_log" (numMap amt F.log1p)
  let amtDec : Val := numMap amt fracPart
  let r := r.set "amt_decimal" amtDec
  let r := r.set "is_round_amt" (boolInt (amtDec = .num 0))
  let r := r.set "P_email_provider" (emailProvider (r.get "P_emaildomain"))
  let r := r.set "R_email_provider" (emailProvider (r.get "R_emaildomain"))
  let r := r.set "email_match"
    (boolInt (r.get "P_emaildomain" ≠ Val.null ∧ r.get "P_emaildomain" = r.get "R_emaildomain"))
  let r := r.set "card_id"
    (.str (pyStr F (r.get "card1") ++ "_" ++ pyStr F (r.get "card2") ++ "_" ++
           pyStr F (r.get "card3") ++ "_" ++ pyStr F (r.get "card4") ++ "_" ++
           pyStr F (r.get "card5") ++ "_" ++ pyStr F (r.get "card6")))
  r

/-- The per-group aggregation `df.groupby(card_col)["TransactionID"].agg(...)`
for the group keyed by `v`: count of non-null entries, mean, and sample
(ddof = 1) standard deviation of the *TransactionID* column — faithfully
reproducing the source, which aggregates "TransactionID", not
"TransactionAmt".  Mean of an empty group and std of a group with fewer than
two numeric entries are NaN (`null`). -/
def aggCard (F : FloatSem) (rows1 : List Row) (cardCol : String) (v : Val) :
    Val × Val × Val :=
  let grp := rows1.filter (fun r => r.get cardCol = v)
  let ids := grp.map (fun r => r.get "TransactionID")
  let present := ids.filter (fun w => w ≠ Val.null)
  let nums := ids.filterMap (fun w => match w with | .num q => some q | _ => none)
  let cnt : Val := .num present.length
  let mean : Val :=
    if nums.length = 0 then .null else .num (nums.sum / (nums.length : ℚ))
  let m : ℚ := nums.sum / (nums.length : ℚ)
  let sd : Val :=
    if nums.length < 2 then .null
    else .num (F.sqrt ((nums.map (fun x => (x - m) ^ 2)).sum / ((nums.length : ℚ) - 1)))
  (cnt, mean, sd)

/-- The left merge of the grouped aggregates back onto a row.  The grouped
table has one row per distinct non-null key, so the join back is modelled as
a row-wise attach; rows with a null group key get null aggregates because
`groupby` dropped them. -/
def attachAgg (F : FloatSem) (rows1 : List Row) (cardCol : String) (r : Row) : Row :=
  let v := r.get cardCol
  if v = Val.null then
    ((r.set "card_txn_count" Val.null).set "card_amt_mean" Val.null).set "card_amt_std" Val.null
  else
    let a := aggCard F rows1 cardCol v
    ((r.set "card_txn_count" a.1).set "card_amt_mean" a.2.1).set "card_amt_std" a.2.2

/-- The eleven per-row derived columns, in creation order. -/
def derivedCols : List String :=
  ["hour", "day_of_week", "is_weekend", "is_night", "amt_log", "amt_decimal",
   "is_round_amt", "P_email_provider", "R_email_provider", "email_match", "card_id"]

/-- The three aggregate columns joined back per card group. -/
def aggCols : List String := ["card_txn_count", "card_amt_mean", "card_amt_std"]

/-- The input columns `engineer_features` reads directly by name. -/
def requiredCols : List String :=
  ["TransactionDT", "TransactionAmt", "P_emaildomain", "R_emaildomain",
   "card1", "card2", "card3", "card4", "card5", "card6"]

/-- `engineer_features`: KeyError when a required configuration key or input
column is absent; otherwise the per-row derivations followed by the
card-group aggregates. -/
def engineer_features (F : FloatSem) (df : DF) (params : Params) : Except String DF :=
  match params.getInt "night_hours_start", params.getInt "night_hours_end",
        params.getStr "card_group_column" with
  | some ns, some ne, some cardCol =>
    if (∀ c ∈ requiredCols, c ∈ df.header) ∧ cardCol ∈ addCols df.header derivedCols ∧
       "TransactionID" ∈ df.header then
      let rows1 := df.rows.map (deriveRow F ns ne)
      .ok ⟨addCols (addCols df.header derivedCols) aggCols,
           rows1.map (attachAgg F rows1 cardCol)⟩
    else .error "KeyError: column"
  | _, _, _ => .error "KeyError: params"

/-- Number of missing cells in a column. -/
def missingCount (df : DF) (c : String) : ℕ :=
  (df.col c).countP (fun v => v = Val.null)

/-- Per-column missing fraction `df.isnull().sum() / len(df)`. -/
def missingFrac (df : DF) (c : String) : ℚ :=
  (missingCount df c : ℚ) / (df.rows.length : ℚ)

/-- A column is object-dtyped (categorical) when it holds a string cell. -/
def isObjectCol (df : DF) (c : String) : Bool :=
  (df.col c).any (fun v => match v with | .str _ => true | _ => false)

/-- The numeric cells of a column (pandas skips NaN in statistics). -/
def numCells (df : DF) (c : String) : List ℚ :=
  (df.col c).filterMap (fun v => match v with | .num q => some q | _ => none)

/-- Pandas median of a list of rationals: average of the two middle elements
of the sorted list; undefined (NaN) for an empty list. -/
def medianQ (l : List ℚ) : Option ℚ :=
  let s := List.insertionSort (fun a b => a ≤ b) l
  if s.length = 0 then none
  else some ((s.getD ((s.length - 1) / 2) 0 + s.getD (s.length / 2) 0) / 2)

/-- Fill one cell of a retained column: missing cells of object columns
become the literal "unknown"; missing cells of numeric columns become the
column's median over its non-missing values (still missing when the median
is undefined). -/
def fillVal (df : DF) (c : String) (v : Val) : Val :=
  if v = Val.null then
    if isObjectCol df c then Val.str "unknown"
    else match medianQ (numCells df c) with | some m => Val.num m | none => Val.null
  else v

/-- The column-drop test `missing_pct[missing_pct > threshold]`.  For an
empty table pandas computes NaN fractions, which compare false against any
threshold, hence the row-count guard. -/
def dropCond (df : DF) (t : ℚ) (c : String) : Prop :=
  0 < df.rows.length ∧ t < missingFrac df c

instance (df : DF) (t : ℚ) (c : String) : Decidable (dropCond df t c) := by
  unfold dropCond; infer_instance

/-- `handle_missing_values`: drop the columns whose missing fraction
strictly exceeds the threshold (default 0.9), then fill the remaining
columns cell-wise.  Each column's median is computed from its own unfilled
cells, which are identical before and after the column drop. -/
def handle_missing_values (df : DF) (params : Params) : DF :=
  let t := params.getRatD "missing_threshold" (9 / 10)
  let kept := df.header.filter (fun c => ¬ dropCond df t c)
  ⟨kept, df.rows.map (fun r => kept.map (fun c => (c, fillVal df c (r.get c))))⟩

/-- Distinct values of a list in order of first appearance. -/
def firstUniques (l : List Val) : List Val :=
  l.foldl (fun acc x => if x ∈ acc then acc else acc ++ [x]) []

/-- The non-null cells of a column (`value_counts`/`nunique` drop NaN). -/
def nonNullCells (l : List Val) : List Val := l.filter (fun v => v ≠ Val.null)

/-- `nunique`: number of distinct non-null values. -/
def nunique (l : List Val) : ℕ := (firstUniques (nonNullCells l)).length

/-- `value_counts().nlargest(10).index`: the ten most frequent non-null
values.  Sorting is stable on descending frequency with ties in order of
first appearance, one deterministic realisation of the unspecified pandas
tie order. -/
def topCategories (l : List Val) : List Val :=
  (List.insertionSort (fun a b => l.count b ≤ l.count a)
    (firstUniques (nonNullCells l))).take 10

/-- Cardinality capping: when a column has more than ten distinct values,
keep the ten most frequent and replace every other cell — including null
cells, which `isin` rejects — with the literal "other". -/
def capColumn (l : List Val) : List Val :=
  if 10 < nunique l then
    l.map (fun v => if v ∈ topCategories l then v else Val.str "other")
  else l

/-- A total order on cell values standing in for the category sort of
`get_dummies` (numbers before strings; pandas would raise on such a mixed
sort, which no claim exercises). -/
def valLeB (a b : Val) : Bool :=
  match a, b with
  | .null, _ => true
  | .num _, .null => false
  | .num p, .num q => p ≤ q
  | .num _, .str _ => true
  | .str s, .str t => s ≤ t
  | .str _, _ => false

/-- The categories one-hot encoded for a column: its distinct non-null
values in sorted order with the first dropped (`drop_first=True`). -/
def dummyCats (l : List Val) : List Val :=
  (List.insertionSort (fun a b => valLeB a b = true) (firstUniques (nonNullCells l))).drop 1

/-- The name `get_dummies` gives an indicator column. -/
def dummyName (c : String) (v : Val) : String :=
  c ++ "_" ++ (match v with | .str s => s | .num q => toString q.num | .null => "nan")

/-- The configured `encoding_exclude` list, default empty. -/
def encodeExclude (params : Params) : List String :=
  params.getStrListD "encoding_exclude" []

/-- The columns selected for encoding: object-dtyped and not excluded. -/
def catColsOf (df : DF) (params : Params) : List String :=
  df.header.filter (fun c => isObjectCol df c ∧ c ∉ encodeExclude params)

/-- The columns that pass through the encoder unchanged. -/
def keptColsOf (df : DF) (params : Params) : List String :=
  df.header.filter (fun c => c ∉ catColsOf df params)

/-- `encode_categorical_variables`: select the object-dtyped columns not in
`encoding_exclude`, cap their cardinality at ten, then one-hot encode them
with the first indicator dropped; all other columns pass through unchanged
(non-encoded columns first, indicator blocks appended in column order). -/
def encode_categorical_variables (df : DF) (params : Params) : DF :=
  let catCols := catColsOf df params
  let capped : String → List Val := fun c => capColumn (df.col c)
  let keptCols := keptColsOf df params
  ⟨keptCols ++ catCols.flatMap (fun c => (dummyCats (capped c)).map (dummyName c)),
   (List.range df.rows.length).map (fun i =>
     keptCols.map (fun c => (c, (df.col c).getD i Val.null)) ++
     catCols.flatMap (fun c => (dummyCats (capped c)).map (fun v =>
       (dummyName c v, boolInt ((capped c).getD i Val.null = v)))))⟩

/-- The configured target column, default "isFraud". -/
def targetOf (p : Params) : String := p.getStrD "target_column" "isFraud"

/-- The configured drop list, default empty (before filtering to present). -/
def dropListOf (p : Params) : List String := p.getStrListD "drop_columns" []

/-- `split_features_target`: drop the configured columns that are present to
form the feature matrix, and read the target column as the target vector;
KeyError exactly when the target column is absent.  The source drops only
`drop_cols` from the feature matrix — the target column itself is not
removed. -/
def split_features_target (df : DF) (params : Params) :
    Except String (DF × List Val) :=
  let dropCols := (dropListOf params).filter (fun c => c ∈ df.header)
  let X : DF := ⟨df.header.filter (fun c => c ∉ dropCols),
                 df.rows.map (fun r => r.filter (fun p => p.1 ∉ dropCols))⟩
  if targetOf params ∈ df.header then .ok (X, df.col (targetOf params))
  else .error "KeyError: target"

/-! ### Basic lemmas about row lookup and assignment -/

theorem find?_mapReplace_self (r : Row) (c : String) (v : Val) :
    (r.map (fun p => if p.1 = c then (c, v) else p)).find? (fun p => p.1 = c) =
      if r.any (fun p => p.1 = c) then some (c, v) else none := by
  induction r with
  | nil => rfl
  | cons p r ih =>
    by_cases hp : p.1 = c
    · rw [List.map_cons, if_pos hp, List.find?_cons_of_pos _ (by simp), List.any_cons]
      have hd : (decide (p.1 = c)) = true := by simpa using hp
      rw [hd, Bool.true_or]
      simp
    · rw [List.map_cons, if_neg hp, List.find?_cons_of_neg _ (by simpa using hp), ih,
        List.any_cons]
      have hd : (decide (p.1 = c)) = false := by simpa using hp
      rw [hd, Bool.false_or]

theorem find?_mapReplace_ne (r : Row) (c c' : String) (v : Val) (h : c' ≠ c) :
    (r.map (fun p => if p.1 = c then (c, v) else p)).find? (fun p => p.1 = c') =
      r.find? (fun p => p.1 = c') := by
  induction r with
  | nil => rfl
  | cons p r ih =>
    by_cases hp : p.1 = c
    · have hpc' : ¬ p.1 = c' := by rw [hp]; exact fun hc => h hc.symm
      rw [List.map_cons, if_pos hp,
        List.find?_cons_of_neg _ (by simp; exact fun hc => h hc.symm),
        List.find?_cons_of_neg _ (by simpa using hpc')]
      exact ih
    · by_cases hpc : p.1 = c'
      · rw [List.map_cons, if_neg hp, List.find?_cons_of_pos _ (by simpa using hpc),
          List.find?_cons_of_pos _ (by simpa using hpc)]
      · rw [List.map_cons, if_neg hp, List.find?_cons_of_neg _ (by simpa using hpc),
          List.find?_cons_of_neg _ (by simpa using hpc)]
        exact ih

theorem Row.get_set_self (r : Row) (c : String) (v : Val) : (r.set c v).get c = v := by
  unfold Row.set Row.get
  by_cases hany : r.any (fun p => p.1 = c) = true
  · rw [if_pos hany, find?_mapReplace_self, if_pos hany]
    rfl
  · rw [if_neg hany, List.find?_append, List.find?_eq_none.mpr, Option.none_or,
      List.find?_cons_of_pos _ (by simp)]
    · rfl
    · intro a ha
      simp only [List.any_eq_true, not_exists, not_and] at hany
      push_neg at hany
      simpa using hany a ha

theorem Row.get_set_ne (r : Row) (c c' : String) (v : Val) (h : c' ≠ c) :
    (r.set c v).get c' = r.get c' := by
  unfold Row.set Row.get
  split
  · rw [find?_mapReplace_ne r c c' v h]
  · rw [List.find?_append, List.find?_cons_of_neg _ (by simpa using fun hc => h hc.symm),
      List.find?_nil, Option.or_none]

theorem find?_name_mapPairs (cs : List String) (f : String → Val) (c : String) :
    ((cs.map (fun x => (x, f x))).find? (fun p => p.1 = c)) =
      if c ∈ cs then some (c, f c) else none := by
  induction cs with
  | nil => rfl
  | cons x cs ih =>
    by_cases hx : x = c
    · subst hx
      rw [List.map_cons, List.find?_cons_of_pos _ (by simp)]
      simp
    · rw [List.map_cons, List.find?_cons_of_neg _ (by simpa using hx), ih]
      simp [Ne.symm hx]

theorem Row.get_mapPairs (cs : List String) (f : String → Val) (c : String) :
    Row.get (cs.map (fun x => (x, f x))) c = if c ∈ cs then f c else Val.null := by
  unfold Row.get
  rw [find?_name_mapPairs]
  split <;> rfl

theorem Row.get_mapPairs_append (cs : List String) (f : String → Val) (rest : Row)
    (c : String) (hc : c ∈ cs) :
    Row.get (cs.map (fun x => (x, f x)) ++ rest) c = f c := by
  unfold Row.get
  rw [List.find?_append, find?_name_mapPairs, if_pos hc]
  rfl

/-! ### Lemmas about the feature-engineering stage -/

theorem deriveRow_get_hour (F : FloatSem) (ns ne : ℤ) (r : Row) (q : ℚ)
    (hdt : r.get "TransactionDT" = Val.num q) :
    (deriveRow F ns ne r).get "hour" = Val.num (((pyFloorDiv q 3600).emod 24 : ℤ) : ℚ) := by
  simp [deriveRow, hdt, Row.get_set_ne, Row.get_set_self]

theorem deriveRow_get_is_night (F : FloatSem) (ns ne : ℤ) (r : Row) (q : ℚ)
    (hdt : r.get "TransactionDT" = Val.num q) :
    (deriveRow F ns ne r).get "is_night" =
      boolInt (decide ((ns : ℚ) ≤ (((pyFloorDiv q 3600).emod 24 : ℤ) : ℚ) ∨
        (((pyFloorDiv q 3600).emod 24 : ℤ) : ℚ) < (ne : ℚ))) := by
  simp [deriveRow, hdt, Row.get_set_ne, Row.get_set_self]

theorem deriveRow_get_email_match (F : FloatSem) (ns ne : ℤ) (r : Row) :
    (deriveRow F ns ne r).get "email_match" =
      boolInt (decide (r.get "P_emaildomain" ≠ Val.null ∧
        r.get "P_emaildomain" = r.get "R_emaildomain")) := by
  simp [deriveRow, Row.get_set_ne, Row.get_set_self]

theorem attachAgg_get_ne (F : FloatSem) (rows1 : List Row) (cc : String) (r : Row)
    (c : String) (h1 : c ≠ "card_txn_count") (h2 : c ≠ "card_amt_mean")
    (h3 : c ≠ "card_amt_std") :
    (attachAgg F rows1 cc r).get c = r.get c := by
  by_cases hv : r.get cc = Val.null
  · simp only [attachAgg, if_pos hv]
    rw [Row.get_set_ne _ _ _ _ h3, Row.get_set_ne _ _ _ _ h2, Row.get_set_ne _ _ _ _ h1]
  · simp only [attachAgg, if_neg hv]
    rw [Row.get_set_ne _ _ _ _ h3, Row.get_set_ne _ _ _ _ h2, Row.get_set_ne _ _ _ _ h1]

theorem attachAgg_get_std (F : FloatSem) (rows1 : List Row) (cc : String) (r : Row)
    (hv : r.get cc ≠ Val.null) :
    (attachAgg F rows1 cc r).get "card_amt_std" = (aggCard F rows1 cc (r.get cc)).2.2 := by
  simp only [attachAgg, if_neg hv]
  rw [Row.get_set_self]

theorem engineer_ok_rows (F : FloatSem) (df : DF) (p : Params) (out : DF)
    (ns ne : ℤ) (cc : String)
    (hns : p.getInt "night_hours_start" = some ns)
    (hne : p.getInt "night_hours_end" = some ne)
    (hcc : p.getStr "card_group_column" = some cc)
    (h : engineer_features F df p = .ok out) :
    out.rows = (df.rows.map (deriveRow F ns ne)).map
      (attachAgg F (df.rows.map (deriveRow F ns ne)) cc) := by
  unfold engineer_features at h
  simp only [hns, hne, hcc] at h
  split at h
  · simp only [Except.ok.injEq] at h
    rw [← h]
  · simp at h

theorem engineer_ok_len (F : FloatSem) (df : DF) (p : Params) (out : DF)
    (ns ne : ℤ) (cc : String)
    (hns : p.getInt "night_hours_start" = some ns)
    (hne : p.getInt "night_hours_end" = some ne)
    (hcc : p.getStr "card_group_column" = some cc)
    (h : engineer_features F df p = .ok out) :
    out.rows.length = df.rows.length := by
  rw [engineer_ok_rows F df p out ns ne cc hns hne hcc h]
  simp

/-! ### Lemmas about the merge stage -/

theorem filter_key_length_le_one (l : List Row) (k : Val)
    (hu : l.Pairwise (fun a b => a.get "TransactionID" ≠ b.get "TransactionID")) :
    (l.filter (fun s => s.get "TransactionID" = k)).length ≤ 1 := by
  induction l with
  | nil => simp
  | cons a l ih =>
    rcases List.pairwise_cons.mp hu with ⟨ha, htail⟩
    by_cases hk : a.get "TransactionID" = k
    · rw [List.filter_cons_of_pos (by simpa using hk)]
      have hnil : l.filter (fun s => s.get "TransactionID" = k) = [] := by
        apply List.filter_eq_nil_iff.mpr
        intro b hb
        simp only [decide_eq_true_eq]
        intro hbk
        exact (ha b hb) (hk.trans hbk.symm)
      rw [hnil]
      simp
    · rw [List.filter_cons_of_neg (by simpa using hk)]
      exact ih htail

theorem mergeRow_length_eq_one (i : DF) (r : Row)
    (hu : i.rows.Pairwise (fun a b => a.get "TransactionID" ≠ b.get "TransactionID")) :
    (mergeRow i r).length = 1 := by
  simp only [mergeRow]
  split
  · rfl
  · next hne =>
    rw [List.length_map]
    have h1 := filter_key_length_le_one i.rows (r.get "TransactionID") hu
    have h0 : (i.rows.filter
        (fun s => s.get "TransactionID" = r.get "TransactionID")).length ≠ 0 := by
      intro hz
      exact hne (by simpa [List.isEmpty_iff, List.length_eq_zero] using hz)
    omega

theorem flatMap_mergeRow_length (i : DF) (rs : List Row)
    (hu : i.rows.Pairwise (fun a b => a.get "TransactionID" ≠ b.get "TransactionID")) :
    (rs.flatMap (mergeRow i)).length = rs.length := by
  induction rs with
  | nil => rfl
  | cons r rs ih =>
    rw [List.flatMap_cons, List.length_append, mergeRow_length_eq_one i r hu, ih,
      List.length_cons]
    omega

theorem merge_ok_rows_length (t i m : DF)
    (hu : i.rows.Pairwise (fun a b => a.get "TransactionID" ≠ b.get "TransactionID"))
    (hm : merge_datasets t i = .ok m) : m.rows.length = t.rows.length := by
  unfold merge_datasets at hm
  split at hm
  · simp only [Except.ok.injEq] at hm
    rw [← hm]
    exact flatMap_mergeRow_length i t.rows hu
  · simp at hm

/-! ### Lemmas about the missing-value stage -/

/-- The configured missing threshold, default 0.9. -/
def thresholdOf (p : Params) : ℚ := p.getRatD "missing_threshold" (9 / 10)

theorem handle_rows_length (df : DF) (p : Params) :
    (handle_missing_values df p).rows.length = df.rows.length := by
  simp [handle_missing_values]

theorem missingFrac_of_len_zero (df : DF) (c : String) (h : df.rows.length = 0) :
    missingFrac df c = 0 := by
  unfold missingFrac
  rw [h]
  simp

theorem handle_header_mem (df : DF) (p : Params) (h0 : 0 ≤ thresholdOf p) (c : String) :
    c ∈ (handle_missing_values df p).header ↔
      c ∈ df.header ∧ missingFrac df c ≤ thresholdOf p := by
  show c ∈ df.header.filter (fun c => ¬ dropCond df (thresholdOf p) c) ↔ _
  rw [List.mem_filter]
  constructor
  · rintro ⟨hmem, hnd⟩
    refine ⟨hmem, ?_⟩
    rw [decide_eq_true_eq] at hnd
    unfold dropCond at hnd
    push_neg at hnd
    by_cases hlen : 0 < df.rows.length
    · exact hnd hlen
    · rw [missingFrac_of_len_zero df c (by omega)]
      exact h0
  · rintro ⟨hmem, hle⟩
    refine ⟨hmem, ?_⟩
    rw [decide_eq_true_eq]
    unfold dropCond
    push_neg
    intro _
    exact hle

theorem handle_cell (df : DF) (p : Params) (c : String)
    (hc : c ∈ (handle_missing_values df p).header) (i : ℕ) (r0 : Row)
    (hi : df.rows[i]? = some r0) (r : Row)
    (hr : (handle_missing_values df p).rows[i]? = some r) :
    r.get c = fillVal df c (r0.get c) := by
  simp only [handle_missing_values] at hc hr
  rw [List.getElem?_map, hi] at hr
  simp only [Option.map_some', Option.some.injEq] at hr
  rw [← hr, Row.get_mapPairs, if_pos hc]

theorem medianQ_isSome (l : List ℚ) (h : l ≠ []) : ∃ m, medianQ l = some m := by
  unfold medianQ
  rw [if_neg]
  · exact ⟨_, rfl⟩
  · rw [List.length_insertionSort, List.length_eq_zero]
    exact h

theorem numCells_ne_nil (df : DF) (c : String)
    (hno : isObjectCol df c = false)
    (hlt : missingCount df c < (df.col c).length) : numCells df c ≠ [] := by
  have hex : ∃ a ∈ df.col c, ¬ (a = Val.null) := by
    by_contra hall
    push_neg at hall
    have : missingCount df c = (df.col c).length := by
      unfold missingCount
      rw [List.countP_eq_length]
      intro a ha
      simpa using hall a ha
    omega
  rcases hex with ⟨a, ha, hane⟩
  unfold isObjectCol at hno
  rw [List.any_eq_false] at hno
  have hns := hno a ha
  match a, hane, hns with
  | Val.num q, _, _ =>
    intro hnil
    have : q ∈ numCells df c := by
      unfold numCells
      rw [List.mem_filterMap]
      exact ⟨Val.num q, ha, rfl⟩
    rw [hnil] at this
    simp at this
  | Val.str s, _, hns => simp at hns
  | Val.null, hane, _ => exact absurd rfl hane

theorem fillVal_ne_null (df : DF) (c : String) (v : Val)
    (h : isObjectCol df c = false → numCells df c ≠ []) :
    fillVal df c v ≠ Val.null := by
  unfold fillVal
  split
  · by_cases hobj : isObjectCol df c
    · rw [if_pos hobj]
      simp
    · rw [if_neg hobj]
      rcases medianQ_isSome (numCells df c) (h (by simpa using hobj)) with ⟨m, hm⟩
      rw [hm]
      simp
  · next hv => exact hv

/-! ### Lemmas about the encoding stage -/

theorem encode_rows_length (df : DF) (p : Params) :
    (encode_categorical_variables df p).rows.length = df.rows.length := by
  simp [encode_categorical_variables]

theorem mem_foldl_uniques (l : List Val) (acc : List Val) (x : Val) :
    x ∈ l.foldl (fun acc x => if x ∈ acc then acc else acc ++ [x]) acc ↔
      x ∈ acc ∨ x ∈ l := by
  induction l generalizing acc with
  | nil => simp
  | cons y l ih =>
    rw [List.foldl_cons, ih]
    by_cases hy : y ∈ acc
    · rw [if_pos hy]
      constructor
      · rintro (h | h)
        · exact Or.inl h
        · exact Or.inr (List.mem_cons_of_mem y h)
      · rintro (h | h)
        · exact Or.inl h
        · rcases List.mem_cons.mp h with rfl | h'
          · exact Or.inl hy
          · exact Or.inr h'
    · rw [if_neg hy]
      constructor
      · rintro (h | h)
        · rcases List.mem_append.mp h with h' | h'
          · exact Or.inl h'
          · rcases List.mem_singleton.mp h' with rfl
            exact Or.inr (by simp)
        · exact Or.inr (List.mem_cons_of_mem y h)
      · rintro (h | h)
        · exact Or.inl (List.mem_append_left _ h)
        · rcases List.mem_cons.mp h with rfl | h'
          · exact Or.inl (List.mem_append_right _ (by simp))
          · exact Or.inr h'

theorem mem_firstUniques (l : List Val) (x : Val) : x ∈ firstUniques l ↔ x ∈ l := by
  unfold firstUniques
  rw [mem_foldl_uniques]
  simp

theorem mem_nonNullCells (l : List Val) (x : Val) :
    x ∈ nonNullCells l ↔ x ∈ l ∧ x ≠ Val.null := by
  unfold nonNullCells
  rw [List.mem_filter]
  simp

theorem topCategories_length (l : List Val) (h : 10 < nunique l) :
    (topCategories l).length = 10 := by
  unfold topCategories
  rw [List.length_take, List.length_insertionSort]
  unfold nunique at h
  exact min_eq_left (by omega)

theorem topCategories_most_frequent (l : List Val) (v w : Val)
    (hv : v ∈ topCategories l) (hw : w ∈ l) (hwn : w ≠ Val.null)
    (hnot : w ∉ topCategories l) : l.count w ≤ l.count v := by
  unfold topCategories at hv hnot
  haveI htot : IsTotal Val (fun a b => l.count b ≤ l.count a) :=
    ⟨fun a b => le_total (l.count b) (l.count a)⟩
  haveI htrans : IsTrans Val (fun a b => l.count b ≤ l.count a) :=
    ⟨fun a b c hab hbc => le_trans hbc hab⟩
  have hs := List.sorted_insertionSort (fun a b : Val => l.count b ≤ l.count a)
    (firstUniques (nonNullCells l))
  set s := List.insertionSort (fun a b : Val => l.count b ≤ l.count a)
    (firstUniques (nonNullCells l)) with hsdef
  have hws : w ∈ s := by
    rw [hsdef, List.mem_insertionSort, mem_firstUniques, mem_nonNullCells]
    exact ⟨hw, hwn⟩
  have hp : List.Pairwise (fun a b => l.count b ≤ l.count a) (s.take 10 ++ s.drop 10) := by
    rw [List.take_append_drop]
    exact hs
  have hcross := (List.pairwise_append.mp hp).2.2
  have hwd : w ∈ s.drop 10 := by
    have := (List.take_append_drop 10 s) ▸ hws
    rcases List.mem_append.mp this with h | h
    · exact absurd h hnot
    · exact h
  exact hcross v hv w hwd

theorem capColumn_mem (l : List Val) (h : 10 < nunique l) (x : Val)
    (hx : x ∈ capColumn l) : x ∈ topCategories l ∨ x = Val.str "other" := by
  unfold capColumn at hx
  rw [if_pos h] at hx
  rcases List.mem_map.mp hx with ⟨v, hv, hveq⟩
  by_cases hvt : v ∈ topCategories l
  · rw [if_pos hvt] at hveq
    exact Or.inl (hveq ▸ hvt)
  · rw [if_neg hvt] at hveq
    exact Or.inr hveq.symm

theorem capColumn_id (l : List Val) (h : ¬ 10 < nunique l) : capColumn l = l :=
  if_neg h

theorem nunique_pos (l : List Val) (hobj : ∃ v ∈ l, v ≠ Val.null) : 0 < nunique l := by
  rcases hobj with ⟨v, hv, hvn⟩
  unfold nunique
  have hmem : v ∈ firstUniques (nonNullCells l) := by
    rw [mem_firstUniques, mem_nonNullCells]
    exact ⟨hv, hvn⟩
  exact List.length_pos.mpr (List.ne_nil_of_mem hmem)

theorem capColumn_has_nonNull (l : List Val) (s : String) (hs : Val.str s ∈ l) :
    ∃ v ∈ capColumn l, v ≠ Val.null := by
  unfold capColumn
  split
  · refine ⟨if Val.str s ∈ topCategories l then Val.str s else Val.str "other",
      List.mem_map.mpr ⟨Val.str s, hs, rfl⟩, ?_⟩
    split <;> simp
  · exact ⟨Val.str s, hs, by simp⟩

theorem dummyCats_length (l : List Val) : (dummyCats l).length = nunique l - 1 := by
  unfold dummyCats nunique
  rw [List.length_drop, List.length_insertionSort]

theorem range_map_getD {α : Type} (l : List α) (d : α) :
    (List.range l.length).map (fun i => l.getD i d) = l := by
  induction l with
  | nil => rfl
  | cons a l ih =>
    rw [List.length_cons, List.range_succ_eq_map, List.map_cons, List.map_map]
    have hc : ((fun i => (a :: l).getD i d) ∘ Nat.succ) = fun i => l.getD i d := by
      funext i
      rfl
    rw [hc, ih]
    simp

theorem encode_passthrough (df : DF) (p : Params) (c : String) (hc : c ∈ df.header)
    (h : isObjectCol df c = false ∨ c ∈ encodeExclude p) :
    c ∈ (encode_categorical_variables df p).header ∧
      (encode_categorical_variables df p).col c = df.col c := by
  have hncat : c ∉ catColsOf df p := by
    unfold catColsOf
    rw [List.mem_filter]
    rintro ⟨-, hdec⟩
    rw [decide_eq_true_eq] at hdec
    rcases h with h | h
    · rw [h] at hdec
      exact absurd hdec.1 (by simp)
    · exact hdec.2 h
  have hkept : c ∈ keptColsOf df p := by
    unfold keptColsOf
    rw [List.mem_filter]
    exact ⟨hc, by simpa using hncat⟩
  constructor
  · exact List.mem_append_left _ hkept
  · show ((encode_categorical_variables df p).rows.map (fun r => r.get c)) = df.col c
    simp only [encode_categorical_variables, List.map_map]
    have hrow : ∀ i : ℕ,
        Row.get ((keptColsOf df p).map (fun c' => (c', (df.col c').getD i Val.null)) ++
          (catColsOf df p).flatMap (fun c' => (dummyCats (capColumn (df.col c'))).map
            (fun v => (dummyName c' v, boolInt ((capColumn (df.col c')).getD i Val.null = v))))) c
          = (df.col c).getD i Val.null := fun i =>
      Row.get_mapPairs_append _ _ _ c hkept
    have hcomp : ((fun r => Row.get r c) ∘ (fun i =>
        (keptColsOf df p).map (fun c' => (c', (df.col c').getD i Val.null)) ++
          (catColsOf df p).flatMap (fun c' => (dummyCats (capColumn (df.col c'))).map
            (fun v => (dummyName c' v, boolInt ((capColumn (df.col c')).getD i Val.null = v))))))
        = fun i => (df.col c).getD i Val.null := by
      funext i
      exact hrow i
    rw [hcomp]
    have hlen : df.rows.length = (df.col c).length := by
      simp [DF.col]
    rw [hlen, range_map_getD]

theorem encode_dummy_mem (df : DF) (p : Params) (c : String)
    (hcat : c ∈ catColsOf df p) (v : Val)
    (hv : v ∈ dummyCats (capColumn (df.col c))) :
    dummyName c v ∈ (encode_categorical_variables df p).header := by
  apply List.mem_append_right
  rw [List.mem_flatMap]
  exact ⟨c, hcat, List.mem_map.mpr ⟨v, hv, rfl⟩⟩

/-! ### Concrete instances used by counterexamples and witnesses -/

/-- A trivial instantiation of the abstracted float operations. -/
def F0 : FloatSem := ⟨fun q => q, fun q => q, fun _ => "f"⟩

/-- Transaction-table rows of the running concrete pipeline instance. -/
def tcRow1 : Row :=
  [("TransactionID", .num 1), ("TransactionDT", .num 79200), ("TransactionAmt", .num 5),
   ("P_emaildomain", .null), ("R_emaildomain", .null),
   ("card1", .str "a"), ("card2", .str "b"), ("card3", .str "c"),
   ("card4", .str "d"), ("card5", .str "e"), ("card6", .str "f")]

def tcRow2 : Row :=
  [("TransactionID", .num 3), ("TransactionDT", .num 36000), ("TransactionAmt", .num 5),
   ("P_emaildomain", .null), ("R_emaildomain", .null),
   ("card1", .str "a"), ("card2", .str "b"), ("card3", .str "c"),
   ("card4", .str "d"), ("card5", .str "e"), ("card6", .str "f")]

def tcRow3 : Row :=
  [("TransactionID", .num 10), ("TransactionDT", .num 0), ("TransactionAmt", .num 7),
   ("P_emaildomain", .null), ("R_emaildomain", .null),
   ("card1", .str "x"), ("card2", .str "x"), ("card3", .str "x"),
   ("card4", .str "x"), ("card5", .str "x"), ("card6", .str "x")]

/-- A concrete transaction table: three rows, two sharing a card identity. -/
def tC : DF :=
  ⟨["TransactionID", "TransactionDT", "TransactionAmt", "P_emaildomain", "R_emaildomain",
    "card1", "card2", "card3", "card4", "card5", "card6"],
   [tcRow1, tcRow2, tcRow3]⟩

/-- A concrete identity table with unique join keys, matching only row 1. -/
def iC : DF :=
  ⟨["TransactionID", "id_01"],
   [[("TransactionID", .num 1), ("id_01", .num 9)]]⟩

/-- The concrete configuration: night hours 22–6, grouping on `card_id`. -/
def pC : Params :=
  [("night_hours_start", .int 22), ("night_hours_end", .int 6),
   ("card_group_column", .str "card_id")]

def mcRow1 : Row := tcRow1 ++ [("id_01", Val.num 9)]
def mcRow2 : Row := tcRow2 ++ [("id_01", Val.null)]
def mcRow3 : Row := tcRow3 ++ [("id_01", Val.null)]

/-- The merged table `merge_datasets tC iC` evaluates to. -/
def mC : DF := ⟨tC.header ++ ["id_01"], [mcRow1, mcRow2, mcRow3]⟩

def fcRow1 : Row :=
  mcRow1 ++
  [("hour", .num 22), ("day_of_week", .num 0), ("is_weekend", .num 0), ("is_night", .num 1),
   ("amt_log", .num 5), ("amt_decimal", .num 0), ("is_round_amt", .num 1),
   ("P_email_provider", .str "unknown"), ("R_email_provider", .str "unknown"),
   ("email_match", .num 0), ("card_id", .str "a_b_c_d_e_f"),
   ("card_txn_count", .num 2), ("card_amt_mean", .num 2), ("card_amt_std", .num 2)]

def fcRow2 : Row :=
  mcRow2 ++
  [("hour", .num 10), ("day_of_week", .num 0), ("is_weekend", .num 0), ("is_night", .num 0),
   ("amt_log", .num 5), ("amt_decimal", .num 0), ("is_round_amt", .num 1),
   ("P_email_provider", .str "unknown"), ("R_email_provider", .str "unknown"),
   ("email_match", .num 0), ("card_id", .str "a_b_c_d_e_f"),
   ("card_txn_count", .num 2), ("card_amt_mean", .num 2), ("card_amt_std", .num 2)]

def fcRow3 : Row :=
  mcRow3 ++
  [("hour", .num 0), ("day_of_week", .num 0), ("is_weekend", .num 0), ("is_night", .num 1),
   ("amt_log", .num 7), ("amt_decimal", .num 0), ("is_round_amt", .num 1),
   ("P_email_provider", .str "unknown"), ("R_email_provider", .str "unknown"),
   ("email_match", .num 0), ("card_id", .str "x_x_x_x_x_x"),
   ("card_txn_count", .num 1), ("card_amt_mean", .num 10), ("card_amt_std", .null)]

/-- The engineered table `engineer_features F0 mC pC` evaluates to.  Note
`card_amt_mean` is 2 on the first group (mean of TransactionIDs 1 and 3)
although both amounts are 5, and `card_amt_std` is undefined on the
single-row group. -/
def fC : DF := ⟨mC.header ++ derivedCols ++ aggCols, [fcRow1, fcRow2, fcRow3]⟩

/-- A two-column table whose target column is "isFraud". -/
def dfS : DF := ⟨["isFraud", "f1"], [[("isFraud", Val.num 0), ("f1", Val.num 3)]]⟩

/-- A one-column table whose single cell is missing. -/
def dfAllNull : DF := ⟨["a"], [[("a", Val.null)]]⟩

/-- A transaction table and an identity table with a duplicated join key. -/
def tDup : DF := ⟨["TransactionID"], [[("TransactionID", Val.num 1)]]⟩

def iDup : DF :=
  ⟨["TransactionID", "a"],
   [[("TransactionID", Val.num 1), ("a", Val.num 1)],
    [("TransactionID", Val.num 1), ("a", Val.num 2)]]⟩

/-- A table holding the required merge key but lacking `TransactionDT`. -/
def dfNoDT : DF := ⟨["TransactionID"], [[("TransactionID", Val.num 1)]]⟩

/-- A two-column table exercising both fill branches of the handler. -/
def dfH : DF :=
  ⟨["a", "b"],
   [[("a", Val.null), ("b", Val.str "x")],
    [("a", Val.num 4), ("b", Val.null)]]⟩

/-- A categorical column with eleven distinct values. -/
def dfE : DF :=
  ⟨["cat"],
   [[("cat", Val.str "a")], [("cat", Val.str "b")], [("cat", Val.str "c")],
    [("cat", Val.str "d")], [("cat", Val.str "e")], [("cat", Val.str "f")],
    [("cat", Val.str "g")], [("cat", Val.str "h")], [("cat", Val.str "i")],
    [("cat", Val.str "j")], [("cat", Val.str "k")]]⟩

/-! ### Claim C1 -/

/-- C1 counterexample: with default parameters (target "isFraud", no drop
columns) the splitter returns the input table unchanged as the feature
matrix, so the feature matrix still contains the target column "isFraud" —
the claimed column set (input minus target minus drop_columns) is wrong. -/
theorem C1_counterexample :
    split_features_target dfS [] = .ok (dfS, [Val.num 0]) ∧
      "isFraud" ∈ dfS.header ∧ targetOf [] = "isFraud" := by
  refine ⟨by with_unfolding_all rfl, by decide, rfl⟩

/-- C1 (amended): on success the splitter returns a feature matrix whose
column set is the input column set minus drop_columns (filtered to those
present); the target column is NOT removed unless it is listed in
drop_columns; the target vector is exactly the named target column. -/
theorem C1_split_feature_columns (df : DF) (p : Params) (X : DF) (y : List Val)
    (h : split_features_target df p = .ok (X, y)) :
    targetOf p ∈ df.header ∧
      (∀ c, c ∈ X.header ↔ c ∈ df.header ∧ c ∉ dropListOf p) ∧
      y = df.col (targetOf p) := by
  unfold split_features_target at h
  split at h
  · next ht =>
    simp only [Except.ok.injEq, Prod.mk.injEq] at h
    refine ⟨ht, ?_, h.2.symm⟩
    intro c
    rw [← h.1]
    show c ∈ df.header.filter
      (fun c => c ∉ (dropListOf p).filter (fun c => c ∈ df.header)) ↔ _
    rw [List.mem_filter]
    constructor
    · rintro ⟨hmem, hdec⟩
      rw [decide_eq_true_eq] at hdec
      refine ⟨hmem, fun hdrop => hdec ?_⟩
      rw [List.mem_filter]
      exact ⟨hdrop, by simpa using hmem⟩
    · rintro ⟨hmem, hnd⟩
      refine ⟨hmem, ?_⟩
      rw [decide_eq_true_eq]
      intro hin
      rw [List.mem_filter] at hin
      exact hnd hin.1
  · simp at h

/-- C1 witness: the amended statement evaluated on the concrete split. -/
theorem C1_witness :
    targetOf [] ∈ dfS.header ∧
      ("isFraud" ∈ dfS.header ↔ "isFraud" ∈ dfS.header ∧ "isFraud" ∉ dropListOf []) ∧
      [Val.num 0] = dfS.col (targetOf []) := by
  have h := C1_split_feature_columns dfS [] dfS [Val.num 0] (by with_unfolding_all rfl)
  exact ⟨h.1, h.2.1 "isFraud", h.2.2⟩

/-! ### Claim C7 -/

/-- C7 counterexample: the splitter is not the only stage that raises — the
feature-engineering stage fails with a lookup error on a table lacking
`TransactionDT`, even with a complete configuration. -/
theorem C7_counterexample : isErr (engineer_features F0 dfNoDT pC) = true := by
  with_unfolding_all rfl

/-- C7 (amended): the splitter fails with a lookup error if and only if the
configured target column is absent from its input table. -/
theorem C7_split_raises_iff (df : DF) (p : Params) :
    isErr (split_features_target df p) = true ↔ targetOf p ∉ df.header := by
  unfold split_features_target
  split
  · next ht => simp [isErr, ht]
  · next ht => simp [isErr, ht]

/-- C7 witness: the amended statement evaluated on a table lacking the
default target column. -/
theorem C7_witness : isErr (split_features_target (⟨["a"], []⟩ : DF) []) = true :=
  (C7_split_raises_iff ⟨["a"], []⟩ []).mpr (by decide)

/-! ### Claim C10 -/

/-- C10: the join key and feature source columns are hard-coded.  The merge
fails exactly when either table lacks "TransactionID"; feature engineering
fails whenever any of its ten required input columns is absent, and whenever
any of its three required configuration keys is absent (they have no
defaults). -/
theorem C10_hardcoded_requirements :
    (∀ t i : DF, ("TransactionID" ∉ t.header ∨ "TransactionID" ∉ i.header) →
      isErr (merge_datasets t i) = true) ∧
    (∀ t i : DF, "TransactionID" ∈ t.header → "TransactionID" ∈ i.header →
      isErr (merge_datasets t i) = false) ∧
    (∀ (F : FloatSem) (df : DF) (p : Params) (c : String), c ∈ requiredCols →
      c ∉ df.header → isErr (engineer_features F df p) = true) ∧
    (∀ (F : FloatSem) (df : DF) (p : Params) (k : String),
      k ∈ (["night_hours_start", "night_hours_end", "card_group_column"] : List String) →
      p.get? k = none → isErr (engineer_features F df p) = true) := by
  refine ⟨?_, ?_, ?_, ?_⟩
  · intro t i h
    unfold merge_datasets
    rw [if_neg]
    · rfl
    · rintro ⟨h1, h2⟩
      rcases h with h | h
      · exact h h1
      · exact h h2
  · intro t i h1 h2
    unfold merge_datasets
    rw [if_pos ⟨h1, h2⟩]
    rfl
  · intro F df p c hcr hcn
    unfold engineer_features
    cases h1 : p.getInt "night_hours_start" with
    | none => rfl
    | some ns =>
      cases h2 : p.getInt "night_hours_end" with
      | none => rfl
      | some ne =>
        cases h3 : p.getStr "card_group_column" with
        | none => rfl
        | some cc =>
          have hcond : ¬ ((∀ c ∈ requiredCols, c ∈ df.header) ∧
              cc ∈ addCols df.header derivedCols ∧ "TransactionID" ∈ df.header) := by
            rintro ⟨hall, -, -⟩
            exact hcn (hall c hcr)
          simp only [if_neg hcond]
          rfl
  · intro F df p k hk hkn
    simp only [List.mem_cons, List.not_mem_nil, or_false] at hk
    rcases hk with rfl | rfl | rfl
    · have h1 : p.getInt "night_hours_start" = none := by
        unfold Params.getInt
        rw [hkn]
      unfold engineer_features
      rw [h1]
      rfl
    · have h2 : p.getInt "night_hours_end" = none := by
        unfold Params.getInt
        rw [hkn]
      unfold engineer_features
      cases h1 : p.getInt "night_hours_start" with
      | none => rfl
      | some ns =>
        rw [h2]
        rfl
    · have h3 : p.getStr "card_group_column" = none := by
        unfold Params.getStr
        rw [hkn]
      unfold engineer_features
      cases h1 : p.getInt "night_hours_start" with
      | none => rfl
      | some ns =>
        cases h2 : p.getInt "night_hours_end" with
        | none => rfl
        | some ne =>
          rw [h3]
          rfl

/-- C10 witness: the error behaviour evaluated on concrete inputs lacking
the merge key and the configuration keys. -/
theorem C10_witness :
    isErr (merge_datasets ⟨["x"], []⟩ ⟨["x"], []⟩) = true ∧
      isErr (engineer_features F0 ⟨["x"], []⟩ []) = true :=
  ⟨C10_hardcoded_requirements.1 ⟨["x"], []⟩ ⟨["x"], []⟩ (Or.inl (by decide)),
   C10_hardcoded_requirements.2.2.2 F0 ⟨["x"], []⟩ [] "night_hours_start"
     (by decide) rfl⟩

/-! ### Claim C2 -/

/-- C2: the card-group aggregation does not aggregate the transaction
amount.  On a group of two rows whose amounts are both 5 (TransactionIDs 1
and 3) the produced `card_amt_mean` is 2 — the mean of the TransactionIDs —
and on the single-row group with amount 7 (TransactionID 10) it is 10.  The
group counts are correct.  The source aggregates the "TransactionID" column
under the names `card_txn_count`, `card_amt_mean`, `card_amt_std`. -/
theorem C2_aggregates_transaction_id :
    engineer_features F0 mC pC = .ok fC ∧
      mC.rows.map (fun r => r.get "TransactionAmt") =
        [Val.num 5, Val.num 5, Val.num 7] ∧
      fC.rows.map (fun r => r.get "card_id") =
        [Val.str "a_b_c_d_e_f", Val.str "a_b_c_d_e_f", Val.str "x_x_x_x_x_x"] ∧
      fC.rows.map (fun r => r.get "card_txn_count") =
        [Val.num 2, Val.num 2, Val.num 1] ∧
      fC.rows.map (fun r => r.get "card_amt_mean") =
        [Val.num 2, Val.num 2, Val.num 10] := by
  refine ⟨by with_unfolding_all rfl, by with_unfolding_all rfl,
    by with_unfolding_all rfl, by with_unfolding_all rfl, by with_unfolding_all rfl⟩

/-! ### Helper lemmas for boolean cells -/

theorem boolInt_eq_one_iff (P : Prop) [Decidable P] :
    boolInt (decide P) = Val.num 1 ↔ P := by
  by_cases h : P <;> simp [boolInt, h]

theorem boolInt_cases (b : Bool) : boolInt b = Val.num 1 ∨ boolInt b = Val.num 0 := by
  cases b <;> simp [boolInt]

/-! ### Claim C3 -/

/-- C3 counterexample: a row whose purchaser and recipient email domains are
both missing — hence identical as values — gets `email_match` 0, because
pandas element-wise equality is false on NaN; the claim requires 1. -/
theorem C3_counterexample :
    mcRow1.get "P_emaildomain" = Val.null ∧
      mcRow1.get "R_emaildomain" = Val.null ∧
      engineer_features F0 mC pC = .ok fC ∧
      fcRow1.get "email_match" = Val.num 0 := by
  refine ⟨by with_unfolding_all rfl, by with_unfolding_all rfl,
    by with_unfolding_all rfl, by with_unfolding_all rfl⟩

/-- C3 (amended): for every row, `email_match` is 1 iff the purchaser email
domain is present (non-missing) and equal to the recipient email domain;
missing compares unequal to everything, including another missing, so a
both-missing row gets 0.  The cell is always 0 or 1. -/
theorem C3_email_match_semantics (F : FloatSem) (df : DF) (p : Params) (out : DF)
    (ns ne : ℤ) (cc : String)
    (hns : p.getInt "night_hours_start" = some ns)
    (hne : p.getInt "night_hours_end" = some ne)
    (hcc : p.getStr "card_group_column" = some cc)
    (h : engineer_features F df p = .ok out)
    (i : ℕ) (r0 : Row) (hr0 : df.rows[i]? = some r0)
    (r : Row) (hr : out.rows[i]? = some r) :
    (r.get "email_match" = Val.num 1 ↔
      (r0.get "P_emaildomain" ≠ Val.null ∧
        r0.get "P_emaildomain" = r0.get "R_emaildomain")) ∧
      (r.get "email_match" = Val.num 1 ∨ r.get "email_match" = Val.num 0) := by
  have hrows := engineer_ok_rows F df p out ns ne cc hns hne hcc h
  rw [hrows, List.getElem?_map, List.getElem?_map, hr0] at hr
  simp only [Option.map_some', Option.some.injEq] at hr
  rw [← hr, attachAgg_get_ne F _ cc _ "email_match" (by decide) (by decide) (by decide),
    deriveRow_get_email_match]
  exact ⟨boolInt_eq_one_iff _, boolInt_cases _⟩

/-- C3 witness: the amended semantics evaluated on the first concrete row. -/
theorem C3_witness :
    (fcRow1.get "email_match" = Val.num 1 ↔
      (mcRow1.get "P_emaildomain" ≠ Val.null ∧
        mcRow1.get "P_emaildomain" = mcRow1.get "R_emaildomain")) ∧
      (fcRow1.get "email_match" = Val.num 1 ∨ fcRow1.get "email_match" = Val.num 0) :=
  C3_email_match_semantics F0 mC pC fC 22 6 "card_id" rfl rfl rfl
    (by with_unfolding_all rfl) 0 mcRow1 rfl fcRow1 rfl

/-! ### Claim C8 -/

/-- C8: for every row whose `TransactionDT` is numeric, the derived hour is
(TransactionDT // 3600) mod 24 and `is_night` is 1 exactly when
hour ≥ night_hours_start or hour < night_hours_end; in particular the
boundary hours behave as the claim states (start inclusive, end exclusive),
the interval wrapping midnight.  The cell is always 0 or 1. -/
theorem C8_is_night (F : FloatSem) (df : DF) (p : Params) (out : DF)
    (ns ne : ℤ) (cc : String)
    (hns : p.getInt "night_hours_start" = some ns)
    (hne : p.getInt "night_hours_end" = some ne)
    (hcc : p.getStr "card_group_column" = some cc)
    (h : engineer_features F df p = .ok out)
    (i : ℕ) (r0 : Row) (hr0 : df.rows[i]? = some r0)
    (q : ℚ) (hdt : r0.get "TransactionDT" = Val.num q)
    (r : Row) (hr : out.rows[i]? = some r) :
    r.get "hour" = Val.num (((pyFloorDiv q 3600).emod 24 : ℤ) : ℚ) ∧
      (r.get "is_night" = Val.num 1 ↔
        ((ns : ℚ) ≤ (((pyFloorDiv q 3600).emod 24 : ℤ) : ℚ) ∨
          ((((pyFloorDiv q 3600).emod 24 : ℤ) : ℚ) < (ne : ℚ)))) ∧
      (r.get "is_night" = Val.num 1 ∨ r.get "is_night" = Val.num 0) := by
  have hrows := engineer_ok_rows F df p out ns ne cc hns hne hcc h
  rw [hrows, List.getElem?_map, List.getElem?_map, hr0] at hr
  simp only [Option.map_some', Option.some.injEq] at hr
  rw [← hr, attachAgg_get_ne F _ cc _ "hour" (by decide) (by decide) (by decide),
    attachAgg_get_ne F _ cc _ "is_night" (by decide) (by decide) (by decide),
    deriveRow_get_hour F ns ne r0 q hdt, deriveRow_get_is_night F ns ne r0 q hdt]
  exact ⟨rfl, boolInt_eq_one_iff _, boolInt_cases _⟩

/-- C8 witness: the boundary case hour = night_hours_start = 22 on the first
concrete row (TransactionDT 79200), which is classified as night. -/
theorem C8_witness :
    fcRow1.get "hour" = Val.num (((pyFloorDiv 79200 3600).emod 24 : ℤ) : ℚ) ∧
      (fcRow1.get "is_night" = Val.num 1 ↔
        (((22 : ℤ) : ℚ) ≤ (((pyFloorDiv 79200 3600).emod 24 : ℤ) : ℚ) ∨
          ((((pyFloorDiv 79200 3600).emod 24 : ℤ) : ℚ) < ((6 : ℤ) : ℚ)))) ∧
      (fcRow1.get "is_night" = Val.num 1 ∨ fcRow1.get "is_night" = Val.num 0) :=
  C8_is_night F0 mC pC fC 22 6 "card_id" rfl rfl rfl (by with_unfolding_all rfl)
    0 mcRow1 rfl 79200 (by with_unfolding_all rfl) fcRow1 rfl

/-! ### Claim C9 -/

theorem aggCard_std_null (F : FloatSem) (rows1 : List Row) (cc : String) (v : Val)
    (hlen : (rows1.filter (fun r => r.get cc = v)).length ≤ 1) :
    (aggCard F rows1 cc v).2.2 = Val.null := by
  unfold aggCard
  have hnums : (((rows1.filter (fun r => r.get cc = v)).map
      (fun r => r.get "TransactionID")).filterMap
      (fun w => match w with | Val.num q => some q | _ => none)).length < 2 := by
    calc (((rows1.filter (fun r => r.get cc = v)).map
        (fun r => r.get "TransactionID")).filterMap
        (fun w => match w with | Val.num q => some q | _ => none)).length
        ≤ ((rows1.filter (fun r => r.get cc = v)).map
            (fun r => r.get "TransactionID")).length := List.length_filterMap_le _ _
      _ = (rows1.filter (fun r => r.get cc = v)).length := List.length_map _ _
      _ ≤ 1 := hlen
      _ < 2 := by omega
  simp only [if_pos hnums]

/-- C9: in the FeatureEngineer output, a card group containing exactly one
row has an undefined (NaN, modelled `null`) `card_amt_std` value — the
sample standard deviation of fewer than two entries — and in particular the
value is not the number 0. -/
theorem C9_single_group_std (F : FloatSem) (df : DF) (p : Params) (out : DF)
    (ns ne : ℤ) (cc : String)
    (hns : p.getInt "night_hours_start" = some ns)
    (hne : p.getInt "night_hours_end" = some ne)
    (hcc : p.getStr "card_group_column" = some cc)
    (hcc1 : cc ≠ "card_txn_count") (hcc2 : cc ≠ "card_amt_mean")
    (hcc3 : cc ≠ "card_amt_std")
    (h : engineer_features F df p = .ok out)
    (r : Row) (hr : r ∈ out.rows)
    (hv : r.get cc ≠ Val.null)
    (hgrp : (out.rows.filter (fun s => s.get cc = r.get cc)).length = 1) :
    r.get "card_amt_std" = Val.null ∧ r.get "card_amt_std" ≠ Val.num 0 := by
  have hrows := engineer_ok_rows F df p out ns ne cc hns hne hcc h
  rw [hrows] at hr hgrp
  rcases List.mem_map.mp hr with ⟨s0, hs0, rfl⟩
  have hpres : ∀ a, (attachAgg F (df.rows.map (deriveRow F ns ne)) cc a).get cc =
      a.get cc := fun a => attachAgg_get_ne F _ cc a cc hcc1 hcc2 hcc3
  rw [hpres s0] at hv
  have hfil : ((df.rows.map (deriveRow F ns ne)).filter
      (fun s => s.get cc = s0.get cc)).length = 1 := by
    rw [List.filter_map] at hgrp
    rw [List.length_map] at hgrp
    rw [← hgrp]
    congr 1
    apply List.filter_congr
    intro a ha
    simp only [Function.comp_apply, hpres a, hpres s0]
  have hstd := attachAgg_get_std F (df.rows.map (deriveRow F ns ne)) cc s0 hv
  rw [hstd, aggCard_std_null F _ cc _ (by rw [hfil])]
  exact ⟨rfl, by simp⟩

/-- C9 witness: the single-row card group of the third concrete row has a
missing standard deviation. -/
theorem C9_witness :
    fcRow3.get "card_amt_std" = Val.null ∧ fcRow3.get "card_amt_std" ≠ Val.num 0 :=
  C9_single_group_std F0 mC pC fC 22 6 "card_id" rfl rfl rfl
    (by decide) (by decide) (by decide) (by with_unfolding_all rfl)
    fcRow3 (by with_unfolding_all decide) (by with_unfolding_all decide)
    (by with_unfolding_all decide)

/-! ### Claim C4 -/

/-- C4 counterexample: with a duplicated join key in the identity table the
left merge emits one output row per match — two rows from a one-row
transaction table — so the row count is not invariant for every non-empty
pair of input tables. -/
theorem C4_counterexample :
    tDup.rows.length = 1 ∧ iDup.rows.length = 2 ∧
      (merge_datasets tDup iDup).map (fun m => m.rows.length) = .ok 2 := by
  refine ⟨rfl, rfl, by with_unfolding_all rfl⟩

/-- C4 (amended): provided every TransactionID value occurs on at most one
row of the identity table, the row count is invariant across the merge,
feature-engineering, missing-value-handling and encoding stages: each
returns exactly as many rows as the transaction table. -/
theorem C4_row_count_invariant (F : FloatSem) (t i : DF) (p : Params) (m f : DF)
    (hu : i.rows.Pairwise (fun a b => a.get "TransactionID" ≠ b.get "TransactionID"))
    (hm : merge_datasets t i = .ok m)
    (ns ne : ℤ) (cc : String)
    (hns : p.getInt "night_hours_start" = some ns)
    (hne : p.getInt "night_hours_end" = some ne)
    (hcc : p.getStr "card_group_column" = some cc)
    (hf : engineer_features F m p = .ok f) :
    m.rows.length = t.rows.length ∧
      f.rows.length = t.rows.length ∧
      (handle_missing_values f p).rows.length = t.rows.length ∧
      (encode_categorical_variables (handle_missing_values f p) p).rows.length =
        t.rows.length := by
  have h1 := merge_ok_rows_length t i m hu hm
  have h2 := engineer_ok_len F m p f ns ne cc hns hne hcc hf
  refine ⟨h1, by omega, ?_, ?_⟩
  · rw [handle_rows_length]
    omega
  · rw [encode_rows_length, handle_rows_length]
    omega

/-- C4 witness: the four row counts on the concrete three-row pipeline. -/
theorem C4_witness :
    mC.rows.length = tC.rows.length ∧
      fC.rows.length = tC.rows.length ∧
      (handle_missing_values fC pC).rows.length = tC.rows.length ∧
      (encode_categorical_variables (handle_missing_values fC pC) pC).rows.length =
        tC.rows.length :=
  C4_row_count_invariant F0 tC iC pC mC fC (by decide) (by with_unfolding_all rfl)
    22 6 "card_id" rfl rfl rfl (by with_unfolding_all rfl)

/-! ### Claim C5 -/

theorem kept_frac_le (df : DF) (p : Params) (c : String)
    (hc : c ∈ (handle_missing_values df p).header) (hpos : 0 < df.rows.length) :
    missingFrac df c ≤ thresholdOf p := by
  have hmem : c ∈ df.header.filter (fun c => ¬ dropCond df (thresholdOf p) c) := hc
  rw [List.mem_filter] at hmem
  have hnd := hmem.2
  rw [decide_eq_true_eq] at hnd
  unfold dropCond at hnd
  push_neg at hnd
  exact hnd hpos

theorem kept_count_lt (df : DF) (p : Params) (c : String) (h1 : thresholdOf p < 1)
    (hc : c ∈ (handle_missing_values df p).header) (hpos : 0 < df.rows.length) :
    missingCount df c < (df.col c).length := by
  have hfrac := kept_frac_le df p c hc hpos
  have hlt : missingFrac df c < 1 := lt_of_le_of_lt hfrac h1
  unfold missingFrac at hlt
  have hlen : (df.col c).length = df.rows.length := by
    simp [DF.col]
  by_contra hge
  push_neg at hge
  have hone : (1 : ℚ) ≤ (missingCount df c : ℚ) / (df.rows.length : ℚ) := by
    rw [le_div_iff₀ (by exact_mod_cast hpos)]
    rw [one_mul]
    exact_mod_cast hlen ▸ hge
  linarith

theorem kept_median_some (df : DF) (p : Params) (c : String) (h1 : thresholdOf p < 1)
    (hc : c ∈ (handle_missing_values df p).header)
    (hobj : isObjectCol df c = false) (hpos : 0 < df.rows.length) :
    ∃ m, medianQ (numCells df c) = some m :=
  medianQ_isSome _ (numCells_ne_nil df c hobj (kept_count_lt df p c h1 hc hpos))

/-- C5 counterexample: with threshold 1, an all-missing numeric column is
retained (its missing fraction 1 does not strictly exceed 1) and its median
is undefined, so the fill leaves the cell missing — the output is not free
of missing values for every threshold. -/
theorem C5_counterexample :
    handle_missing_values dfAllNull [("missing_threshold", PVal.rat 1)] =
      ⟨["a"], [[("a", Val.null)]]⟩ := by
  with_unfolding_all rfl

/-- C5 (amended): for every feature table and every threshold in [0, 1) —
in particular the default 0.9 — the handler drops exactly the columns whose
missing fraction strictly exceeds the threshold (so every retained column
had pre-fill missing fraction ≤ threshold); it keeps the row count; in every
retained column a non-missing cell is unchanged, a missing cell of an
object-dtyped column becomes the literal "unknown", and a missing cell of a
numeric column becomes that column's median over its non-missing values
(computed per column, identically before and after the column drop); and the
output has no missing value in any column. -/
theorem C5_missing_value_handler (df : DF) (p : Params)
    (h0 : 0 ≤ thresholdOf p) (h1 : thresholdOf p < 1) :
    (∀ c, c ∈ (handle_missing_values df p).header ↔
      c ∈ df.header ∧ missingFrac df c ≤ thresholdOf p) ∧
    (handle_missing_values df p).rows.length = df.rows.length ∧
    (∀ c, c ∈ (handle_missing_values df p).header →
      ∀ (i : ℕ) (r0 r : Row), df.rows[i]? = some r0 →
        (handle_missing_values df p).rows[i]? = some r →
        ((r0.get c ≠ Val.null → r.get c = r0.get c) ∧
          (r0.get c = Val.null → isObjectCol df c = true →
            r.get c = Val.str "unknown") ∧
          (r0.get c = Val.null → isObjectCol df c = false →
            ∃ m, medianQ (numCells df c) = some m ∧ r.get c = Val.num m))) ∧
    (∀ c, c ∈ (handle_missing_values df p).header →
      Val.null ∉ (handle_missing_values df p).col c) := by
  refine ⟨handle_header_mem df p h0, handle_rows_length df p, ?_, ?_⟩
  · intro c hc i r0 r hi hr
    have hcell := handle_cell df p c hc i r0 hi r hr
    refine ⟨?_, ?_, ?_⟩
    · intro hnn
      rw [hcell]
      unfold fillVal
      rw [if_neg hnn]
    · intro hnull hobj
      rw [hcell, hnull]
      unfold fillVal
      rw [if_pos rfl, if_pos hobj]
    · intro hnull hobj
      have hpos : 0 < df.rows.length := by
        rcases List.getElem?_eq_some.mp hi with ⟨hlt, -⟩
        omega
      rcases kept_median_some df p c h1 hc hobj hpos with ⟨m, hm⟩
      refine ⟨m, hm, ?_⟩
      rw [hcell, hnull]
      unfold fillVal
      rw [if_pos rfl, if_neg (by simp [hobj]), hm]
  · intro c hc hmem
    unfold DF.col at hmem
    rcases List.mem_map.mp hmem with ⟨r, hrmem, hnull⟩
    rcases List.mem_iff_getElem?.mp hrmem with ⟨i, hi⟩
    cases hrow : df.rows[i]? with
    | none =>
      rw [List.getElem?_eq_none_iff] at hrow
      rcases List.getElem?_eq_some.mp hi with ⟨hlt, -⟩
      rw [handle_rows_length] at hlt
      omega
    | some r0 =>
      have hpos : 0 < df.rows.length := by
        rcases List.getElem?_eq_some.mp hrow with ⟨hlt, -⟩
        omega
      have hcell := handle_cell df p c hc i r0 hrow r hi
      have hne : fillVal df c (r0.get c) ≠ Val.null := by
        apply fillVal_ne_null
        intro hobj
        exact numCells_ne_nil df c hobj (kept_count_lt df p c h1 hc hpos)
      exact hne (hcell ▸ hnull)

/-- C5 witness: the amended statement evaluated on a two-column table with
one missing numeric cell (filled with the median 4) and one missing
categorical cell (filled with "unknown"), at the default threshold 0.9. -/
theorem C5_witness :
    (handle_missing_values dfH []).rows.length = dfH.rows.length ∧
      Val.null ∉ (handle_missing_values dfH []).col "a" ∧
      Val.null ∉ (handle_missing_values dfH []).col "b" := by
  have h := C5_missing_value_handler dfH []
    (by show (0 : ℚ) ≤ 9 / 10; norm_num)
    (by show (9 : ℚ) / 10 < 1; norm_num)
  have hhdr : (handle_missing_values dfH []).header = ["a", "b"] := by
    with_unfolding_all rfl
  have hha : "a" ∈ (handle_missing_values dfH []).header := by
    rw [hhdr]
    decide
  have hhb : "b" ∈ (handle_missing_values dfH []).header := by
    rw [hhdr]
    decide
  exact ⟨h.2.1, h.2.2.2 "a" hha, h.2.2.2 "b" hhb⟩

/-! ### Claim C6 -/

/-- C6: the encoder transforms each object-dtyped column not listed in
`encoding_exclude` as follows.  If its distinct-value count exceeds 10,
the ten most frequent values are kept (the kept set has exactly ten
elements, and every kept value's frequency is at least every replaced
value's frequency, ties resolved by the deterministic stable order of the
counting) and every other cell becomes the literal "other"; otherwise the
column is unchanged by capping.  One-hot encoding then emits exactly
k − 1 indicator columns for a column with k post-capping categories
(the first indicator is dropped), and each indicator name appears in the
output header.  Excluded and non-categorical columns pass through
unchanged. -/
theorem C6_encoder (df : DF) (p : Params) :
    (∀ c, c ∈ df.header → isObjectCol df c = true → c ∉ encodeExclude p →
      ((10 < nunique (df.col c) →
        (topCategories (df.col c)).length = 10 ∧
        (∀ v ∈ topCategories (df.col c), ∀ w ∈ df.col c, w ≠ Val.null →
          w ∉ topCategories (df.col c) →
          (df.col c).count w ≤ (df.col c).count v) ∧
        (∀ x ∈ capColumn (df.col c),
          x ∈ topCategories (df.col c) ∨ x = Val.str "other")) ∧
       (¬ 10 < nunique (df.col c) → capColumn (df.col c) = df.col c) ∧
       ((dummyCats (capColumn (df.col c))).length + 1 =
         nunique (capColumn (df.col c))) ∧
       (∀ v ∈ dummyCats (capColumn (df.col c)),
         dummyName c v ∈ (encode_categorical_variables df p).header))) ∧
    (∀ c, c ∈ df.header → (isObjectCol df c = false ∨ c ∈ encodeExclude p) →
      c ∈ (encode_categorical_variables df p).header ∧
        (encode_categorical_variables df p).col c = df.col c) := by
  constructor
  · intro c hc hobj hex
    refine ⟨?_, capColumn_id _, ?_, ?_⟩
    · intro hgt
      exact ⟨topCategories_length _ hgt,
        fun v hv w hw hwn hnot => topCategories_most_frequent _ v w hv hw hwn hnot,
        fun x hx => capColumn_mem _ hgt x hx⟩
    · have hstr : ∃ s, Val.str s ∈ df.col c := by
        unfold isObjectCol at hobj
        rw [List.any_eq_true] at hobj
        rcases hobj with ⟨v, hvmem, hvb⟩
        cases v with
        | num q => simp at hvb
        | str s => exact ⟨s, hvmem⟩
        | null => simp at hvb
      rcases hstr with ⟨s, hs⟩
      have hpos : 0 < nunique (capColumn (df.col c)) :=
        nunique_pos _ (capColumn_has_nonNull _ s hs)
      have hlen := dummyCats_length (capColumn (df.col c))
      omega
    · intro v hv
      apply encode_dummy_mem df p c ?_ v hv
      unfold catColsOf
      rw [List.mem_filter]
      refine ⟨hc, ?_⟩
      rw [decide_eq_true_eq]
      exact ⟨hobj, hex⟩
  · intro c hc h
    exact encode_passthrough df p c hc h

/-- C6 witness: the cap and the k − 1 indicator count evaluated on a
concrete column with eleven distinct values. -/
theorem C6_witness :
    (topCategories (dfE.col "cat")).length = 10 ∧
      (dummyCats (capColumn (dfE.col "cat"))).length + 1 =
        nunique (capColumn (dfE.col "cat")) := by
  have h := (C6_encoder dfE []).1 "cat" (by decide) (by decide) (by decide)
  exact ⟨(h.1 (by decide)).1, h.2.2.1⟩
